import Mathlib

/-!
Shallow embedding of the nmigen UART test repository (uart.py): the
clock_divider function, the UART_RX receiver state machine, and the
UART_TX timing stub, together with proofs of the specified properties.

Modelling conventions: machine integers are Nat with explicit wrapping
where the hardware register width matters (the 3-bit rx_bit counter wraps
mod 8, the 8-bit rx_buf stays below 256 by construction of the shift);
the synchronous update of one clock tick is a pure step function on an
explicit state record; the Python float error computation is modelled
with exact rationals.
-/

namespace UartModel

/-- Failure cases of the clock divider: the two ValueError raises in
clock_divider, distinguished by their printed message. -/
inductive DividerError where
  | invalidDivisor
  | excessiveTimingError
deriving DecidableEq, Repr

/-- The relative deviation of the achieved rate inf / div from the target
rate outf, where div is the integer divisor inf / outf: the expression
err = ((inf / div) - outf) / outf of uart.py line 18, in exact rationals. -/
def achieved_err (inf outf : ℕ) : ℚ :=
  (((inf : ℚ) / ((inf / outf : ℕ) : ℚ)) - (outf : ℚ)) / (outf : ℚ)

/-- clock_divider from uart.py lines 8-25: computes div = inf // outf,
fails if div < 1, fails if the relative error exceeds max_err, and
otherwise returns div. -/
def clock_divider (inf outf : ℕ) (max_err : ℚ) : Except DividerError ℕ :=
  let div := inf / outf
  if div < 1 then .error .invalidDivisor
  else if achieved_err inf outf > max_err then .error .excessiveTimingError
  else .ok div

/-- The six states of the UART_RX finite state machine. -/
inductive RxFsm where
  | Idle
  | Start
  | Data
  | Stop
  | Full
  | Error
deriving DecidableEq, Repr

/-- The synchronous registers of UART_RX: the FSM state, the bit-timing
counter rx_count, the 8-bit receive buffer rx_buf, the 3-bit bit index
rx_bit, and the handshake registers rx_ack and rx_fix. -/
structure RxState where
  fsm : RxFsm
  rx_count : ℕ
  rx_buf : ℕ
  rx_bit : ℕ
  rx_ack : Bool
  rx_fix : Bool
deriving DecidableEq, Repr

/-- The counter update of uart.py lines 53-56: wrap to 0 on reaching
div - 1, otherwise increment. -/
def cnt (div c : ℕ) : ℕ :=
  if c = div - 1 then 0 else c + 1

/-- One synchronous clock tick of the UART_RX module (uart.py lines
49-119). The input rx is the sampled line level for this tick. The
strobe is combinational: rx_count = 0. Later sync assignments override
earlier ones, so the Idle-to-Start transition overrides the counter
increment with div / 2. The Data-state buffer update is
Cat(rx_buf[1:8], rx): the buffer shifts right one position and the
sampled bit enters at position 7. -/
def rx_step (div : ℕ) (s : RxState) (rx : Bool) : RxState :=
  let c2 := cnt div s.rx_count
  match s.fsm with
  | .Idle =>
      if rx then { s with rx_count := c2 }
      else
        { fsm := .Start, rx_count := div / 2, rx_buf := 0, rx_bit := 0,
          rx_ack := false, rx_fix := false }
  | .Start =>
      if s.rx_count = 0 then { s with fsm := .Data, rx_count := c2 }
      else { s with rx_count := c2 }
  | .Data =>
      if s.rx_count = 0 then
        { s with fsm := if s.rx_bit = 7 then .Stop else .Data,
                 rx_buf := s.rx_buf / 2 % 128 + (if rx then 128 else 0),
                 rx_bit := (s.rx_bit + 1) % 8,
                 rx_count := c2 }
      else { s with rx_count := c2 }
  | .Stop =>
      if s.rx_count = 0 then
        { s with fsm := if rx then .Full else .Error, rx_count := c2 }
      else { s with rx_count := c2 }
  | .Full =>
      if s.rx_ack then { s with fsm := .Idle, rx_count := c2 }
      else if rx then { s with rx_count := c2 }
      else { s with fsm := .Error, rx_count := c2 }
  | .Error =>
      if s.rx_fix then { s with fsm := .Idle, rx_count := c2 }
      else { s with rx_count := c2 }

/-- Reset values of the UART_RX registers: all signals reset to 0,
the FSM to its first declared state Idle. -/
def rxReset : RxState :=
  { fsm := .Idle, rx_count := 0, rx_buf := 0, rx_bit := 0,
    rx_ack := false, rx_fix := false }

/-- Run the receiver for n ticks from state s, feeding the line level
inp t at tick t. -/
def rxRunWith (div : ℕ) (inp : ℕ → Bool) (s : RxState) : ℕ → RxState
  | 0 => s
  | n + 1 => rx_step div (rxRunWith div inp s n) (inp n)

/-- The line waveform of a correctly framed byte B, one bit period of
div ticks per symbol, as driven by uart_rx_byte in the testbench:
low for ticks 0..div-1 (start bit), then data bit i of B for ticks
(i+1)*div..(i+2)*div-1 (LSB first), then high from tick 9*div on
(stop bit). -/
def frame (B div t : ℕ) : Bool :=
  if t < div then false
  else if t < 9 * div then B.testBit (t / div - 1)
  else true

/-- Run the receiver from reset while the line carries a correctly
framed byte B. -/
def rxRun (div B n : ℕ) : RxState :=
  rxRunWith div (frame B div) rxReset n

/-- The free-running bit-timing counter, with no FSM override: starts
at 0 and follows the update of uart.py lines 53-56 every tick. -/
def rx_count_free (div : ℕ) : ℕ → ℕ
  | 0 => 0
  | n + 1 => cnt div (rx_count_free div n)

/-- The combinational strobe of uart.py line 58: rx_count = 0. -/
def rx_strobe_free (div n : ℕ) : Bool :=
  rx_count_free div n == 0

/-- The synchronous registers of UART_TX: the tx output line and the
bit-timing counter. -/
structure TxState where
  tx : Bool
  tx_count : ℕ
deriving DecidableEq, Repr

/-- One synchronous clock tick of the UART_TX module (uart.py lines
135-148): only the counter is updated; no statement drives tx. -/
def tx_step (div : ℕ) (s : TxState) : TxState :=
  { tx := s.tx, tx_count := cnt div s.tx_count }

/-- Reset values of the UART_TX registers. -/
def txReset : TxState :=
  { tx := false, tx_count := 0 }

/-- Run the transmitter for n ticks from reset. -/
def txRun (div : ℕ) : ℕ → TxState
  | 0 => txReset
  | n + 1 => tx_step div (txRun div n)

/-! Helper lemmas. -/

/-- The free-running counter computes n mod div. -/
lemma rx_count_free_eq_mod (div : ℕ) (hdiv : 0 < div) :
    ∀ n, rx_count_free div n = n % div := by
  intro n
  induction n with
  | zero => simp [rx_count_free]
  | succ n ih =>
      have hlt : n % div < div := Nat.mod_lt _ hdiv
      have hq := Nat.div_add_mod n div
      rw [rx_count_free, ih, cnt]
      by_cases h : n % div = div - 1
      · rw [if_pos h]
        have h2 : n + 1 = div * (n / div + 1) := by
          rw [Nat.mul_add, Nat.mul_one]
          omega
        rw [h2, Nat.mul_mod_right]
      · rw [if_neg h]
        have h2 : n % div + 1 < div := by omega
        have h3 : (n + 1) % div = n % div + 1 := by
          conv_lhs => rw [show n + 1 = div * (n / div) + (n % div + 1) by omega]
          rw [Nat.mul_add_mod]
          exact Nat.mod_eq_of_lt h2
        exact h3.symm

/-- Steps in Start, Data or Stop with the counter nonzero only advance
the counter. -/
lemma rx_step_hold (div : ℕ) (s : RxState) (r : Bool)
    (hf : s.fsm = RxFsm.Start ∨ s.fsm = RxFsm.Data ∨ s.fsm = RxFsm.Stop)
    (hc : s.rx_count ≠ 0) :
    rx_step div s r = { s with rx_count := cnt div s.rx_count } := by
  rcases hf with h | h | h <;> simp [rx_step, h, hc]

/-- Splitting a run at an intermediate tick. -/
lemma rxRunWith_add (div : ℕ) (inp : ℕ → Bool) (s : RxState) (n m : ℕ) :
    rxRunWith div inp s (n + m) =
      rxRunWith div (fun k => inp (n + k)) (rxRunWith div inp s n) m := by
  induction m with
  | zero => rfl
  | succ m ih => rw [show n + (m + 1) = (n + m) + 1 from rfl,
      rxRunWith, rxRunWith, ih]

/-- Waiting m ticks in Start, Data or Stop from counter value c with
c + m at most div leaves all registers unchanged and brings the counter
to c + m, or to 0 when c + m reaches div. -/
lemma rx_wait (div : ℕ) (inp : ℕ → Bool) (s : RxState) (m : ℕ)
    (hf : s.fsm = RxFsm.Start ∨ s.fsm = RxFsm.Data ∨ s.fsm = RxFsm.Stop)
    (h0 : 0 < s.rx_count) (h1 : s.rx_count < div) (h2 : s.rx_count + m ≤ div) :
    rxRunWith div inp s m =
      { s with rx_count := if s.rx_count + m = div then 0 else s.rx_count + m } := by
  induction m with
  | zero =>
      rw [if_neg (by omega)]
      rfl
  | succ m ih =>
      have hstep : rxRunWith div inp s m = { s with rx_count := s.rx_count + m } := by
        rw [ih (by omega), if_neg (by omega)]
      rw [rxRunWith, hstep,
        rx_step_hold div _ (inp m) (by simpa using hf) (by simp; omega)]
      have hc : cnt div (s.rx_count + m) =
          if s.rx_count + (m + 1) = div then 0 else s.rx_count + (m + 1) := by
        rw [cnt]
        split_ifs <;> omega
      simp [hc]

/-- Waiting in Full with the ack register clear and the line held high
keeps the machine in Full with the buffer and ack unchanged. -/
lemma rx_full_wait (div : ℕ) (inp : ℕ → Bool) (s : RxState) (m : ℕ)
    (hf : s.fsm = RxFsm.Full) (hack : s.rx_ack = false)
    (hinp : ∀ k, k < m → inp k = true) :
    (rxRunWith div inp s m).fsm = RxFsm.Full ∧
    (rxRunWith div inp s m).rx_buf = s.rx_buf ∧
    (rxRunWith div inp s m).rx_ack = false := by
  induction m with
  | zero => exact ⟨hf, rfl, hack⟩
  | succ m ih =>
      obtain ⟨h1, h2, h3⟩ := ih (fun k hk => hinp k (by omega))
      rw [rxRunWith]
      refine ⟨?_, ?_, ?_⟩ <;>
        simp [rx_step, h1, h2, h3, hinp m (by omega)]

/-- Error with the fix register clear is absorbing: the fix register is
never set by the engine, so the state stays Error under any line input. -/
lemma rx_error_sticky (div : ℕ) (inp : ℕ → Bool) (s : RxState)
    (hf : s.fsm = RxFsm.Error) (hfix : s.rx_fix = false) :
    ∀ n, (rxRunWith div inp s n).fsm = RxFsm.Error ∧
      (rxRunWith div inp s n).rx_fix = false := by
  intro n
  induction n with
  | zero => exact ⟨hf, hfix⟩
  | succ n ih =>
      obtain ⟨h1, h2⟩ := ih
      rw [rxRunWith]
      constructor <;> simp [rx_step, h1, h2]

/-- One Data-state shift: the partially filled buffer holding the j low
bits of B in its top j positions absorbs bit j of B at the top. -/
lemma rx_buf_absorb (B j : ℕ) (hj : j ≤ 7) :
    B % 2 ^ j * 2 ^ (8 - j) / 2 % 128 + (if B.testBit j then 128 else 0)
      = B % 2 ^ (j + 1) * 2 ^ (8 - (j + 1)) := by
  have h8 : 8 - j = (7 - j) + 1 := by omega
  have hdiv2 : B % 2 ^ j * 2 ^ (8 - j) / 2 = B % 2 ^ j * 2 ^ (7 - j) := by
    rw [h8, pow_succ, ← Nat.mul_assoc, Nat.mul_div_cancel _ (by norm_num : 0 < 2)]
  have hpow : (2 : ℕ) ^ j * 2 ^ (7 - j) = 128 := by
    rw [← pow_add, show j + (7 - j) = 7 by omega]
    norm_num
  have hlt : B % 2 ^ j * 2 ^ (7 - j) < 128 := by
    have h1 : B % 2 ^ j < 2 ^ j := Nat.mod_lt _ (Nat.pos_pow_of_pos j (by norm_num))
    calc B % 2 ^ j * 2 ^ (7 - j)
        < 2 ^ j * 2 ^ (7 - j) :=
          (Nat.mul_lt_mul_right (Nat.pos_pow_of_pos _ (by norm_num))).mpr h1
      _ = 128 := hpow
  rw [hdiv2, Nat.mod_eq_of_lt hlt]
  have hsplit : B % 2 ^ (j + 1) = B % 2 ^ j + 2 ^ j * (B / 2 ^ j % 2) := by
    rw [pow_succ, Nat.mod_mul]
  have h87 : 8 - (j + 1) = 7 - j := by omega
  rw [h87, hsplit, Nat.add_mul, Nat.testBit_to_div_mod]
  rcases Nat.mod_two_eq_zero_or_one (B / 2 ^ j) with hb | hb
  · rw [hb]
    simp
  · rw [hb]
    simp [hpow]

/-- Tick 1 of the framed-byte run: the start bit moves Idle to Start and
loads the counter with div / 2. -/
lemma rx_frame_start (div B : ℕ) (hdiv : 4 ≤ div) :
    rxRun div B 1 = ⟨RxFsm.Start, div / 2, 0, 0, false, false⟩ := by
  have h0 : frame B div 0 = false := by
    simp [frame, show (0 : ℕ) < div by omega]
  simp only [rxRun, rxRunWith, h0]
  simp [rx_step, rxReset]

/-- End of the Start phase: the counter, loaded with div / 2, reaches 0
again at tick div - div / 2 + 1 with the machine still in Start. -/
lemma rx_start_phase (div B : ℕ) (hdiv : 4 ≤ div) :
    rxRun div B (div - div / 2 + 1) = ⟨RxFsm.Start, 0, 0, 0, false, false⟩ := by
  have e : div - div / 2 + 1 = 1 + (div - div / 2) := by omega
  have hS := rx_frame_start div B hdiv
  simp only [rxRun] at hS ⊢
  rw [e, rxRunWith_add, hS]
  rw [rx_wait div _ _ _ (Or.inl rfl) (by simp; omega) (by simp; omega) (by simp; omega)]
  simp
  omega

/-- The strobe at the midpoint of the start bit moves Start to Data. -/
lemma rx_enter_data (div B : ℕ) (hdiv : 4 ≤ div) :
    rxRun div B (div - div / 2 + 2) = ⟨RxFsm.Data, 1, 0, 0, false, false⟩ := by
  have hS := rx_start_phase div B hdiv
  simp only [rxRun] at hS ⊢
  show rx_step div (rxRunWith div (frame B div) rxReset (div - div / 2 + 1))
      (frame B div (div - div / 2 + 1)) = _
  rw [hS]
  simp [rx_step, cnt, show ¬(0 : ℕ) = div - 1 by omega]

/-- The Data loop: after j strobes (j at most 8) the machine has latched
the j low bits of B into the top of the buffer and advanced BitIndex to
j, moving to Stop on the eighth strobe. -/
lemma rx_data_loop (div B : ℕ) (hdiv : 4 ≤ div) :
    ∀ j, j ≤ 8 →
      rxRun div B (div - div / 2 + 2 + j * div) =
        ⟨if j = 8 then RxFsm.Stop else RxFsm.Data, 1,
          B % 2 ^ j * 2 ^ (8 - j), j % 8, false, false⟩ := by
  intro j
  induction j with
  | zero =>
      intro _
      simpa [Nat.mod_one] using rx_enter_data div B hdiv
  | succ j ih =>
      intro hj8
      have hj : j ≤ 7 := by omega
      have hD := ih (by omega)
      rw [if_neg (show ¬ j = 8 by omega)] at hD
      have hjm : j % 8 = j := Nat.mod_eq_of_lt (by omega)
      rw [hjm] at hD
      have hsm : (j + 1) * div = j * div + div := Nat.succ_mul j div
      have e : div - div / 2 + 2 + (j + 1) * div =
          ((div - div / 2 + 2 + j * div) + (div - 1)) + 1 := by
        rw [hsm]; omega
      have hW : rxRunWith div (frame B div) rxReset
          ((div - div / 2 + 2 + j * div) + (div - 1)) =
          ⟨RxFsm.Data, 0, B % 2 ^ j * 2 ^ (8 - j), j, false, false⟩ := by
        rw [rxRunWith_add]
        simp only [rxRun] at hD
        rw [hD]
        rw [rx_wait div _ _ _ (Or.inr (Or.inl rfl)) (by simp) (by simp; omega)
          (by simp; omega)]
        simp
        omega
      have hframe : frame B div ((div - div / 2 + 2 + j * div) + (div - 1)) =
          B.testBit j := by
        have hmul : j * div ≤ 7 * div := Nat.mul_le_mul_right div hj
        have h1 : ¬ ((div - div / 2 + 2 + j * div) + (div - 1) < div) := by omega
        have h2 : (div - div / 2 + 2 + j * div) + (div - 1) < 9 * div := by omega
        have h3 : ((div - div / 2 + 2 + j * div) + (div - 1)) / div = j + 1 := by
          have e2 : (div - div / 2 + 2 + j * div) + (div - 1) =
              (div - div / 2 + 1) + (j + 1) * div := by
            rw [hsm]; omega
          rw [e2, Nat.add_mul_div_right _ _ (show 0 < div by omega),
            Nat.div_eq_of_lt (by omega)]
          omega
        simp only [frame, if_neg h1, if_pos h2, h3]
        simp
      simp only [rxRun]
      rw [e, rxRunWith, hW, hframe]
      have hcnt : cnt div 0 = 1 := by
        rw [cnt, if_neg (by omega)]
      simp only [rx_step, hcnt]
      rw [rx_buf_absorb B j hj]
      by_cases h7 : j = 7
      · subst h7
        simp
      · rw [if_neg (show ¬ j = 7 by omega), if_neg (show ¬ j + 1 = 8 by omega)]
        simp

/-- End of the Stop wait: one bit period after the eighth data strobe
the machine sits in Stop with the full byte and the counter back at 0. -/
lemma rx_stop_phase (div B : ℕ) (hdiv : 4 ≤ div) (hB : B < 256) :
    rxRun div B (div - div / 2 + 1 + 9 * div) =
      ⟨RxFsm.Stop, 0, B, 0, false, false⟩ := by
  have hD := rx_data_loop div B hdiv 8 (le_refl 8)
  rw [if_pos rfl] at hD
  have hbuf : B % 2 ^ 8 * 2 ^ (8 - 8) = B := by
    rw [Nat.mod_eq_of_lt (show B < 2 ^ 8 by norm_num; omega)]
    norm_num
  rw [hbuf, show 8 % 8 = 0 from rfl] at hD
  have e : div - div / 2 + 1 + 9 * div = (div - div / 2 + 2 + 8 * div) + (div - 1) := by
    omega
  simp only [rxRun] at *
  rw [e, rxRunWith_add, hD]
  rw [rx_wait div _ _ _ (Or.inr (Or.inr rfl)) (by simp) (by simp; omega) (by simp; omega)]
  simp
  omega

/-- The strobe in the middle of the stop bit finds the line high and
moves Stop to Full with the byte held in the buffer. -/
lemma rx_enter_full (div B : ℕ) (hdiv : 4 ≤ div) (hB : B < 256) :
    rxRun div B (div - div / 2 + 2 + 9 * div) =
      ⟨RxFsm.Full, 1, B, 0, false, false⟩ := by
  have e : div - div / 2 + 2 + 9 * div = (div - div / 2 + 1 + 9 * div) + 1 := by omega
  simp only [rxRun] at *
  rw [e, rxRunWith, ← rxRun, rx_stop_phase div B hdiv hB]
  have hframe : frame B div (div - div / 2 + 1 + 9 * div) = true := by
    simp only [frame]
    rw [if_neg (by omega), if_neg (by omega)]
  rw [hframe]
  simp [rx_step, cnt, show ¬(0 : ℕ) = div - 1 by omega]

/-! Claim theorems. -/

/-- Claim C1 counterexample: with divisor 1 (a configuration the divider
accepts, for example equal clock and baud rate) and byte 0, the framed
byte never brings the engine to Full during the 10-tick frame; it ends
in Stop with buffer 128, because for small divisors the midpoint
realignment lands the samples one bit period late. -/
theorem rx_roundtrip_counterexample :
    ((List.range 11).all fun n => (rxRun 1 0 n).fsm != RxFsm.Full) = true ∧
    (rxRun 1 0 10).fsm = RxFsm.Stop ∧ (rxRun 1 0 10).rx_buf = 128 := by
  decide

/-- Claim C1 amended: for divisors of at least 4, driving the line with
a correctly framed byte B (start low for div ticks, the 8 bits of B
LSB-first for div ticks each, stop high for div ticks) drives the
engine from reset through Start, Data and Stop into Full, and at the
end of the frame the state is Full with ReceiveBuffer equal to B. -/
theorem rx_roundtrip (div B : ℕ) (hdiv : 4 ≤ div) (hB : B < 256) :
    (rxRun div B 1).fsm = RxFsm.Start ∧
    (rxRun div B (div - div / 2 + 2)).fsm = RxFsm.Data ∧
    (rxRun div B (div - div / 2 + 2 + 8 * div)).fsm = RxFsm.Stop ∧
    (rxRun div B (10 * div)).fsm = RxFsm.Full ∧
    (rxRun div B (10 * div)).rx_buf = B := by
  have hFull := rx_enter_full div B hdiv hB
  have e : 10 * div = (div - div / 2 + 2 + 9 * div) + (div / 2 - 2) := by omega
  have hinp : ∀ k, k < div / 2 - 2 →
      frame B div ((div - div / 2 + 2 + 9 * div) + k) = true := by
    intro k hk
    simp only [frame]
    rw [if_neg (by omega), if_neg (by omega)]
  have htail : (rxRun div B (10 * div)).fsm = RxFsm.Full ∧
      (rxRun div B (10 * div)).rx_buf = B := by
    simp only [rxRun] at hFull ⊢
    rw [e, rxRunWith_add, hFull]
    obtain ⟨h1, h2, h3⟩ := rx_full_wait div
      (fun k => frame B div ((div - div / 2 + 2 + 9 * div) + k))
      ⟨RxFsm.Full, 1, B, 0, false, false⟩ (div / 2 - 2) rfl rfl hinp
    exact ⟨h1, h2⟩
  refine ⟨?_, ?_, ?_, htail.1, htail.2⟩
  · rw [rx_frame_start div B hdiv]
  · rw [rx_enter_data div B hdiv]
  · rw [rx_data_loop div B hdiv 8 (le_refl 8)]
    simp

/-- Claim C1 amended witness: divisor 4 and byte 175 reach Full with the
buffer holding 175 at the end of the frame. -/
theorem rx_roundtrip_witness :
    (rxRun 4 175 1).fsm = RxFsm.Start ∧
    (rxRun 4 175 (4 - 4 / 2 + 2)).fsm = RxFsm.Data ∧
    (rxRun 4 175 (4 - 4 / 2 + 2 + 8 * 4)).fsm = RxFsm.Stop ∧
    (rxRun 4 175 (10 * 4)).fsm = RxFsm.Full ∧
    (rxRun 4 175 (10 * 4)).rx_buf = 175 :=
  rx_roundtrip 4 175 (by decide) (by decide)

/-- Claim C2: for positive clk_freq and baud_rate with clk_freq at least
baud_rate and achieved relative error within the tolerance, clock_divider
returns div = floor(clk_freq / baud_rate) with div at least 1; for
baud_rate greater than clk_freq it fails with the invalid-divisor error. -/
theorem clock_divider_spec (inf outf : ℕ) (max_err : ℚ) :
    (0 < outf → outf ≤ inf → achieved_err inf outf ≤ max_err →
      clock_divider inf outf max_err = Except.ok (inf / outf) ∧ 1 ≤ inf / outf) ∧
    (inf < outf →
      clock_divider inf outf max_err = Except.error DividerError.invalidDivisor) := by
  constructor
  · intro h0 h1 herr
    have hdiv : 1 ≤ inf / outf := (Nat.one_le_div_iff h0).mpr h1
    refine ⟨?_, hdiv⟩
    simp only [clock_divider]
    rw [if_neg (by omega), if_neg (not_lt.mpr herr)]
  · intro h
    have hz : inf / outf = 0 := Nat.div_eq_of_lt h
    simp only [clock_divider]
    rw [hz, if_pos (by omega)]

/-- Claim C2 witness: clock_divider at 10 and 3 with tolerance 1 returns
the floor quotient 3. -/
theorem clock_divider_spec_witness :
    clock_divider 10 3 1 = Except.ok (10 / 3) ∧ 1 ≤ 10 / 3 :=
  (clock_divider_spec 10 3 1).1 (by decide) (by decide)
    (by norm_num [achieved_err])

/-- Claim C6 counterexample: with baud_rate equal to clk_freq the
function returns divisor 1 instead of failing. -/
theorem clock_divider_equal_counterexample :
    clock_divider 1000 1000 (1 / 20 : ℚ) = Except.ok 1 := by
  norm_num [clock_divider, achieved_err]

/-- Claim C6 amended: clock_divider fails with the invalid-divisor error
exactly when the target baud rate strictly exceeds the clock frequency;
with baud_rate equal to clk_freq and a nonnegative tolerance it returns
divisor 1. -/
theorem clock_divider_invalid_iff (inf outf : ℕ) (e : ℚ) :
    (inf < outf →
      clock_divider inf outf e = Except.error DividerError.invalidDivisor) ∧
    (0 < outf → outf ≤ inf →
      clock_divider inf outf e ≠ Except.error DividerError.invalidDivisor) ∧
    (0 < inf → 0 ≤ e → clock_divider inf inf e = Except.ok 1) := by
  refine ⟨fun h => ((clock_divider_spec inf outf e).2 h), fun h0 h1 => ?_, fun h0 he => ?_⟩
  · have hdiv : 1 ≤ inf / outf := (Nat.one_le_div_iff h0).mpr h1
    simp only [clock_divider]
    rw [if_neg (by omega)]
    split_ifs <;> simp
  · have hone : inf / inf = 1 := Nat.div_self h0
    have herr : achieved_err inf inf = 0 := by
      simp only [achieved_err, hone]
      have : ((inf : ℚ)) ≠ 0 := by exact_mod_cast h0.ne'
      field_simp
    simp only [clock_divider]
    rw [hone, if_neg (by omega), herr, if_neg (not_lt.mpr he)]

/-- Claim C6 amended witness: concrete instances of the three cases. -/
theorem clock_divider_invalid_iff_witness :
    clock_divider 1 2 0 = Except.error DividerError.invalidDivisor ∧
    clock_divider 2 1 0 ≠ Except.error DividerError.invalidDivisor ∧
    clock_divider 3 3 0 = Except.ok 1 :=
  ⟨(clock_divider_invalid_iff 1 2 0).1 (by decide),
   (clock_divider_invalid_iff 2 1 0).2.1 (by decide) (by decide),
   (clock_divider_invalid_iff 3 3 0).2.2 (by decide) (by decide)⟩

/-- Claim C10: when the divisor check passes on positive inputs, the
achieved rate clk_freq / div is at least baud_rate, the relative
deviation is nonnegative, and the signed comparison against the
tolerance coincides with the absolute-value comparison. -/
theorem achieved_err_nonneg (inf outf : ℕ) (max_err : ℚ)
    (h0 : 0 < outf) (h1 : 1 ≤ inf / outf) :
    (outf : ℚ) ≤ (inf : ℚ) / ((inf / outf : ℕ) : ℚ) ∧
    0 ≤ achieved_err inf outf ∧
    (achieved_err inf outf > max_err ↔ |achieved_err inf outf| > max_err) := by
  have hd0 : (0 : ℚ) < ((inf / outf : ℕ) : ℚ) := by
    exact_mod_cast Nat.lt_of_lt_of_le Nat.zero_lt_one h1
  have hmul : ((inf / outf : ℕ) : ℚ) * (outf : ℚ) ≤ (inf : ℚ) := by
    exact_mod_cast Nat.div_mul_le_self inf outf
  have hkey : (outf : ℚ) ≤ (inf : ℚ) / ((inf / outf : ℕ) : ℚ) := by
    rw [le_div_iff hd0]
    linarith
  have h2 : 0 ≤ achieved_err inf outf := by
    apply div_nonneg
    · linarith
    · positivity
  exact ⟨hkey, h2, by rw [abs_of_nonneg h2]⟩

/-- Claim C10 witness: at clock 10 and baud 3 the achieved rate exceeds
the target and the deviation is nonnegative. -/
theorem achieved_err_nonneg_witness :
    (3 : ℚ) ≤ (10 : ℚ) / ((10 / 3 : ℕ) : ℚ) ∧
    0 ≤ achieved_err 10 3 ∧
    (achieved_err 10 3 > 1 ↔ |achieved_err 10 3| > 1) :=
  achieved_err_nonneg 10 3 1 (by decide) (by decide)

/-- Claim C3: the free-running bit-timing counter equals the tick index
mod div, so the strobe is asserted at tick n exactly when n is a
multiple of div: once every div ticks, indefinitely. -/
theorem strobe_periodic (div n : ℕ) (hdiv : 0 < div) :
    rx_count_free div n = n % div ∧
    (rx_strobe_free div n = true ↔ n % div = 0) := by
  have h := rx_count_free_eq_mod div hdiv n
  refine ⟨h, ?_⟩
  rw [rx_strobe_free, h]
  simp

/-- Claim C3 witness: with div 3 the strobe at tick 6 is asserted and
the counter reads 0. -/
theorem strobe_periodic_witness :
    rx_count_free 3 6 = 6 % 3 ∧ (rx_strobe_free 3 6 = true ↔ 6 % 3 = 0) :=
  strobe_periodic 3 6 (by decide)

/-- Claim C4: in Full, an asserted ack always yields Idle even with the
line low; with ack clear a low line yields Error, never Start; with ack
clear and the line high the state stays Full. -/
theorem rx_full_priority (div : ℕ) (s : RxState) (r : Bool)
    (hf : s.fsm = RxFsm.Full) :
    (s.rx_ack = true → (rx_step div s r).fsm = RxFsm.Idle) ∧
    (s.rx_ack = false → r = false → (rx_step div s r).fsm = RxFsm.Error) ∧
    (s.rx_ack = false → r = true → (rx_step div s r).fsm = RxFsm.Full) := by
  refine ⟨fun ha => ?_, fun ha hr => ?_, fun ha hr => ?_⟩
  · simp [rx_step, hf, ha]
  · simp [rx_step, hf, ha, hr]
  · simp [rx_step, hf, ha, hr]

/-- Claim C4 witness: the three Full transitions at concrete states,
including ack asserted simultaneously with a low line. -/
theorem rx_full_priority_witness :
    (rx_step 4 ⟨RxFsm.Full, 2, 9, 0, true, false⟩ false).fsm = RxFsm.Idle ∧
    (rx_step 4 ⟨RxFsm.Full, 2, 9, 0, false, false⟩ false).fsm = RxFsm.Error ∧
    (rx_step 4 ⟨RxFsm.Full, 2, 9, 0, false, false⟩ true).fsm = RxFsm.Full :=
  ⟨(rx_full_priority 4 ⟨RxFsm.Full, 2, 9, 0, true, false⟩ false rfl).1 rfl,
   (rx_full_priority 4 ⟨RxFsm.Full, 2, 9, 0, false, false⟩ false rfl).2.1 rfl rfl,
   (rx_full_priority 4 ⟨RxFsm.Full, 2, 9, 0, false, false⟩ true rfl).2.2 rfl rfl⟩

/-- Claim C5: in Stop a strobe with the line low yields Error; from
Error with the fix register clear the state remains Error for every
number of ticks and every line activity; asserting fix yields Idle. -/
theorem rx_stop_error_handling (div : ℕ) :
    (∀ (s : RxState) (r : Bool), s.fsm = RxFsm.Stop → s.rx_count = 0 →
      r = false → (rx_step div s r).fsm = RxFsm.Error) ∧
    (∀ (s : RxState) (inp : ℕ → Bool) (n : ℕ), s.fsm = RxFsm.Error →
      s.rx_fix = false → (rxRunWith div inp s n).fsm = RxFsm.Error) ∧
    (∀ (s : RxState) (r : Bool), s.fsm = RxFsm.Error → s.rx_fix = true →
      (rx_step div s r).fsm = RxFsm.Idle) := by
  refine ⟨fun s r hf hc hr => ?_, fun s inp n hf hfix => ?_, fun s r hf hfix => ?_⟩
  · simp [rx_step, hf, hc, hr]
  · exact (rx_error_sticky div inp s hf hfix n).1
  · simp [rx_step, hf, hfix]

/-- Claim C5 witness: a concrete missing stop bit enters Error, Error
persists for 5 ticks of arbitrary line toggling, and fix clears it. -/
theorem rx_stop_error_handling_witness :
    (rx_step 4 ⟨RxFsm.Stop, 0, 5, 0, false, false⟩ false).fsm = RxFsm.Error ∧
    (rxRunWith 4 (fun k => decide (k % 2 = 0)) ⟨RxFsm.Error, 1, 5, 0, false, false⟩ 5).fsm
      = RxFsm.Error ∧
    (rx_step 4 ⟨RxFsm.Error, 1, 5, 0, false, true⟩ true).fsm = RxFsm.Idle :=
  ⟨(rx_stop_error_handling 4).1 ⟨RxFsm.Stop, 0, 5, 0, false, false⟩ false rfl rfl rfl,
   (rx_stop_error_handling 4).2.1 ⟨RxFsm.Error, 1, 5, 0, false, false⟩
     (fun k => decide (k % 2 = 0)) 5 rfl rfl,
   (rx_stop_error_handling 4).2.2 ⟨RxFsm.Error, 1, 5, 0, false, true⟩ true rfl rfl⟩

/-- Claim C7 counterexample: in Data with BitIndex 0 and an empty buffer,
latching a 1 stores 128, not 1: the sampled bit does not occupy position
BitIndex when latched, and position 0 stays clear. -/
theorem rx_data_latch_counterexample :
    (rx_step 4 ⟨RxFsm.Data, 0, 0, 0, false, false⟩ true).rx_buf = 128 ∧
    (rx_step 4 ⟨RxFsm.Data, 0, 0, 0, false, false⟩ true).rx_buf.testBit 0 = false := by
  decide

/-- Claim C7 amended: in Data on each strobe the sampled line value is
inserted at bit position 7 while the existing buffer bits shift down one
position, and BitIndex is incremented by 1 mod 8. -/
theorem rx_data_shift (div : ℕ) (s : RxState) (r : Bool)
    (hf : s.fsm = RxFsm.Data) (hc : s.rx_count = 0) :
    ((rx_step div s r).rx_buf.testBit 7 = r) ∧
    (∀ i, i < 7 → (rx_step div s r).rx_buf.testBit i = s.rx_buf.testBit (i + 1)) ∧
    ((rx_step div s r).rx_bit = (s.rx_bit + 1) % 8) := by
  have hb : s.rx_buf / 2 % 128 < 128 := Nat.mod_lt _ (by omega)
  have h128 : (2 : ℕ) ^ 7 = 128 := by norm_num
  refine ⟨?_, fun i hi => ?_, ?_⟩
  · rcases r with _ | _
    · have hstep : (rx_step div s false).rx_buf = s.rx_buf / 2 % 128 := by
        simp [rx_step, hf, hc]
      rw [hstep, Nat.testBit_to_div_mod, h128, decide_eq_false_iff_not]
      omega
    · have hstep : (rx_step div s true).rx_buf = s.rx_buf / 2 % 128 + 128 := by
        simp [rx_step, hf, hc]
      rw [hstep, Nat.testBit_to_div_mod, h128, decide_eq_true_eq]
      omega
  · rcases r with _ | _
    · have hstep : (rx_step div s false).rx_buf = s.rx_buf / 2 % 128 := by
        simp [rx_step, hf, hc]
      rw [hstep, Nat.testBit_to_div_mod, Nat.testBit_to_div_mod, decide_eq_decide]
      interval_cases i <;> norm_num <;> omega
    · have hstep : (rx_step div s true).rx_buf = s.rx_buf / 2 % 128 + 128 := by
        simp [rx_step, hf, hc]
      rw [hstep, Nat.testBit_to_div_mod, Nat.testBit_to_div_mod, decide_eq_decide]
      interval_cases i <;> norm_num <;> omega
  · simp [rx_step, hf, hc]

/-- Claim C7 amended witness: latching a 1 into buffer 6 at BitIndex 2
sets bit 7, moves old bit 2 to position 1, and increments BitIndex. -/
theorem rx_data_shift_witness :
    ((rx_step 4 ⟨RxFsm.Data, 0, 6, 2, false, false⟩ true).rx_buf.testBit 7 = true) ∧
    ((rx_step 4 ⟨RxFsm.Data, 0, 6, 2, false, false⟩ true).rx_buf.testBit 1
      = Nat.testBit 6 2) ∧
    ((rx_step 4 ⟨RxFsm.Data, 0, 6, 2, false, false⟩ true).rx_bit = (2 + 1) % 8) :=
  ⟨(rx_data_shift 4 ⟨RxFsm.Data, 0, 6, 2, false, false⟩ true rfl rfl).1,
   (rx_data_shift 4 ⟨RxFsm.Data, 0, 6, 2, false, false⟩ true rfl rfl).2.1 1 (by decide),
   (rx_data_shift 4 ⟨RxFsm.Data, 0, 6, 2, false, false⟩ true rfl rfl).2.2⟩

/-- Claim C8 counterexample: in Idle with the line low the engine writes
the handshake registers, clearing both ack and fix. -/
theorem rx_handshake_counterexample :
    (rx_step 4 ⟨RxFsm.Idle, 0, 0, 0, true, true⟩ false).rx_ack = false ∧
    (rx_step 4 ⟨RxFsm.Idle, 0, 0, 0, true, true⟩ false).rx_fix = false := by
  decide

/-- Claim C8 amended: the engine writes ack and fix exactly on the
Idle-to-Start transition, clearing both to 0; on every other state and
tick it leaves them unchanged. -/
theorem rx_handshake_writes (div : ℕ) (s : RxState) (r : Bool) :
    (s.fsm = RxFsm.Idle → r = false →
      (rx_step div s r).rx_ack = false ∧ (rx_step div s r).rx_fix = false) ∧
    (¬(s.fsm = RxFsm.Idle ∧ r = false) →
      (rx_step div s r).rx_ack = s.rx_ack ∧ (rx_step div s r).rx_fix = s.rx_fix) := by
  constructor
  · intro hf hr
    simp [rx_step, hf, hr]
  · intro h
    rcases r with _ | _
    · cases hfsm : s.fsm
      case Idle => exact absurd ⟨hfsm, rfl⟩ h
      all_goals simp [rx_step, hfsm] <;> split_ifs <;> simp
    · cases hfsm : s.fsm
      all_goals simp [rx_step, hfsm] <;> split_ifs <;> simp

/-- Claim C8 amended witness: Idle with the line low clears both
registers; Full with the line high leaves them unchanged. -/
theorem rx_handshake_writes_witness :
    ((rx_step 4 ⟨RxFsm.Idle, 1, 2, 3, true, true⟩ false).rx_ack = false ∧
      (rx_step 4 ⟨RxFsm.Idle, 1, 2, 3, true, true⟩ false).rx_fix = false) ∧
    ((rx_step 4 ⟨RxFsm.Full, 0, 9, 1, false, true⟩ true).rx_ack = false ∧
      (rx_step 4 ⟨RxFsm.Full, 0, 9, 1, false, true⟩ true).rx_fix = true) :=
  ⟨(rx_handshake_writes 4 ⟨RxFsm.Idle, 1, 2, 3, true, true⟩ false).1 rfl rfl,
   (rx_handshake_writes 4 ⟨RxFsm.Full, 0, 9, 1, false, true⟩ true).2 (by simp)⟩

/-- Claim C9: the transmitter drives nothing onto tx: each tick leaves
tx unchanged, and from reset tx reads low (0) forever. -/
theorem tx_never_driven (div n : ℕ) (s : TxState) :
    (tx_step div s).tx = s.tx ∧ (txRun div n).tx = false := by
  refine ⟨rfl, ?_⟩
  induction n with
  | zero => rfl
  | succ n ih => simpa [txRun, tx_step] using ih

end UartModel
